import Mathlib

/-!
Verification of the LinkShortener core (src/LinkShortener.py) against its
natural-language specification.

Shallow embedding choices:
* The sqlite `links` table is modelled as a `List Link` of rows, in insertion
  order.  SQL point lookups (`select ... where short_link = ?` + `fetchone`)
  become `List.find?`; the `update ... where` statement becomes a `List.map`
  that rewrites every matching row; `delete ... where` becomes a filter.
* `random.randint(0, len(charset)-1)` is modelled by an explicit stream of
  in-range indices `Nat → Fin charset.length`; the unbounded retry loop of
  `get_valid_short_link` consumes a finite list of such streams (one per
  candidate) and returns `none` when the list is exhausted, standing for the
  loop not having terminated yet.
* The third-party `validators` library is external to the repository, so its
  `validators.url` / `validators.domain` predicates are abstracted as
  function parameters `isUrl isDomain : String → Bool`.
* `format_url` returns `-1` on failure in Python; that sentinel is modelled
  as `none : Option String`.
* A sqlite `insert` that would violate the UNIQUE constraints of the schema
  (on `short_link` and on `deletion_id`) raises; `add_link` therefore
  returns `Option (List Link)`, with `none` for the constraint violation.
-/

namespace LinkShortener

/-- The charset of `generate_random_code` (src line 27), verbatim. -/
def charset : List Char :=
  "abcdefghjkmnopqrstuvwxyzABCDEFGHJKLMNPQRSTUVWXYZ23456789".toList

/-- `generate_random_code(length)` (src lines 21-28): joins `length`
characters, each `charset[random.randint(0, len(charset)-1)]`.  The
randomness source is the explicit index stream `randint`. -/
def generate_random_code (length : Nat) (randint : Nat → Fin charset.length) :
    String :=
  String.mk ((List.range length).map (fun i => charset.get (randint i)))

/-- `format_url(url)` (src lines 30-42), with the `validators` library
abstracted as the predicates `isUrl` (`validators.url`) and `isDomain`
(`validators.domain`); the Python sentinel `-1` is `none`. -/
def format_url (isUrl isDomain : String → Bool) (url : String) :
    Option String :=
  if isUrl url then
    some url
  else if isDomain url then
    if isUrl ("http://" ++ url) then some ("http://" ++ url) else none
  else
    none

/-- A row of the `links` table; fields as assigned in `Link.__init__`
(src lines 46-52). -/
structure Link where
  url : String
  short_link : String
  deletion_id : String
  clicks : Nat
  timestamp : Nat
deriving DecidableEq

/-- `LinkDatabase.get_link_from_short` (src lines 81-96): `select * from
links where short_link = ?` followed by `fetchone`, i.e. the first matching
row, or `None`. -/
def get_link_from_short (db : List Link) (short_link : String) :
    Option Link :=
  db.find? (fun l => l.short_link == short_link)

/-- `LinkDatabase.update_link` (src lines 98-104): `update links set
url=?,deletion_id=?,clicks=?,timestamp=? where short_link = ?`, rewriting
every row whose `short_link` matches. -/
def update_link (db : List Link) (link : Link) : List Link :=
  db.map (fun l =>
    if l.short_link == link.short_link then
      { l with url := link.url, deletion_id := link.deletion_id,
               clicks := link.clicks, timestamp := link.timestamp }
    else l)

/-- `LinkDatabase.delete_link` (src lines 107-109): `delete from links
where short_link = ?`. -/
def delete_link (db : List Link) (link : Link) : List Link :=
  db.filter (fun l => !(l.short_link == link.short_link))

/-- `LinkDatabase.add_link` (src lines 111-116): an `insert` into a table
whose schema (src lines 142-150) declares `short_link` and `deletion_id`
UNIQUE; a violating insert raises in sqlite, modelled as `none`. -/
def add_link (db : List Link) (link : Link) : Option (List Link) :=
  if db.any (fun l =>
      l.short_link == link.short_link || l.deletion_id == link.deletion_id)
  then none
  else some (db ++ [link])

/-- `LinkDatabase.is_shortcode_in_db` (src lines 127-128): `select
count(short_link) from links where short_link=?` compared with `> 0`. -/
def is_shortcode_in_db (db : List Link) (shortCode : String) : Bool :=
  decide (0 < db.countP (fun l => l.short_link == shortCode))

/-- `LinkDatabase.get_valid_short_link` (src lines 118-124): loop
generating candidates with `generate_random_code(length)` until one is not
in the database.  Each list element supplies the randomness of one loop
iteration; an exhausted list (`none`) stands for the loop still running. -/
def get_valid_short_link (db : List Link) (length : Nat) :
    List (Nat → Fin charset.length) → Option String
  | [] => none
  | r :: rest =>
    let candidate := generate_random_code length r
    if is_shortcode_in_db db candidate then
      get_valid_short_link db length rest
    else
      some candidate

/-- Outcome of the redirect handler. -/
inductive RedirectResult where
  | redirect (url : String)
  | notFound
deriving DecidableEq

/-- `handle_redirect_url` (src lines 176-187) for a present path argument:
look up the link; absent renders the not-found page (db untouched);
present does `clicks += 1`, persists with `update_link`, and redirects to
the link's url. -/
def handle_redirect_url (db : List Link) (argument : String) :
    RedirectResult × List Link :=
  match get_link_from_short db argument with
  | none => (.notFound, db)
  | some link_object =>
    let updated := { link_object with clicks := link_object.clicks + 1 }
    (.redirect updated.url, update_link db updated)

/-- Outcome of the deletion POST handler. -/
inductive DeletionResult where
  | deleted
  | tokenMismatch
  | notFound
deriving DecidableEq

/-- `handle_deletion_request` (src lines 207-220): look up the link by
shortcode; absent is an error; a submitted code equal (Python `==` on
strings, exact comparison) to the stored `deletion_id` deletes the row;
anything else renders the invalid-code page, leaving the db untouched. -/
def handle_deletion_request (db : List Link) (shortcode deletion_code : String) :
    DeletionResult × List Link :=
  match get_link_from_short db shortcode with
  | none => (.notFound, db)
  | some link_object =>
    if deletion_code == link_object.deletion_id then
      (.deleted, delete_link db link_object)
    else
      (.tokenMismatch, db)

/-- Outcome of the URL submission handler. -/
inductive NewUrlResult where
  | created (short_code deletion_code : String)
  | invalidUrl (submitted : String)
deriving DecidableEq

/-- `handle_new_url` (src lines 159-174): format the (already stripped)
submitted url; on failure render the invalid-url page; otherwise allocate
a 3-character short code, generate a 6-character deletion code, and insert
a `Link` with `clicks = 0` at the current epoch time.  `rands` feeds the
allocation loop and `tokRand` the deletion-code generation; the outer
`none` covers the two non-returning paths (allocation loop still running,
sqlite uniqueness violation on insert). -/
def handle_new_url (db : List Link) (isUrl isDomain : String → Bool)
    (submitted_url : String) (rands : List (Nat → Fin charset.length))
    (tokRand : Nat → Fin charset.length) (current_epoch_time : Nat) :
    Option (NewUrlResult × List Link) :=
  match format_url isUrl isDomain submitted_url with
  | none => some (.invalidUrl submitted_url, db)
  | some formatted_url =>
    match get_valid_short_link db 3 rands with
    | none => none
    | some short_code =>
      let deletion_id := generate_random_code 6 tokRand
      let new_link : Link :=
        { url := formatted_url, short_link := short_code,
          deletion_id := deletion_id, clicks := 0,
          timestamp := current_epoch_time }
      match add_link db new_link with
      | none => none
      | some db2 => some (.created short_code deletion_id, db2)

/-! ### Helper lemmas about the list-modelled store -/

/-- A lookup in a mapped table: when the map preserves `short_link`, the
first row matching a code is mapped to the first match of the image. -/
theorem find?_map_of_short_link_eq (f : Link → Link)
    (hf : ∀ l, (f l).short_link = l.short_link) (code : String) :
    ∀ (db : List Link) (link : Link),
      db.find? (fun l => l.short_link == code) = some link →
      (db.map f).find? (fun l => l.short_link == code) = some (f link) := by
  intro db
  induction db with
  | nil => intro link h; simp at h
  | cons a t ih =>
    intro link h
    rw [List.map_cons]
    by_cases ha : (a.short_link == code) = true
    · have hpa : (fun l : Link => l.short_link == code) a = true := ha
      have hpf : (fun l : Link => l.short_link == code) (f a) = true := by
        show ((f a).short_link == code) = true
        rw [hf a]; exact ha
      rw [List.find?_cons_of_pos t hpa] at h
      rw [List.find?_cons_of_pos (List.map f t) hpf]
      injection h with h
      rw [h]
    · have hpa : ¬(fun l : Link => l.short_link == code) a = true := ha
      have hpf : ¬(fun l : Link => l.short_link == code) (f a) = true := by
        show ¬((f a).short_link == code) = true
        rw [hf a]; exact ha
      rw [List.find?_cons_of_neg t hpa] at h
      rw [List.find?_cons_of_neg (List.map f t) hpf]
      exact ih link h

/-- A lookup skips a prefix in which no row matches. -/
theorem find?_append_of_none {p : Link → Bool} :
    ∀ (db₁ db₂ : List Link), db₁.find? p = none →
      (db₁ ++ db₂).find? p = db₂.find? p := by
  intro db₁
  induction db₁ with
  | nil => intro db₂ _; rfl
  | cons a t ih =>
    intro db₂ h
    rw [List.cons_append]
    by_cases ha : p a = true
    · rw [List.find?_cons_of_pos _ ha] at h
      exact absurd h (by simp)
    · rw [List.find?_cons_of_neg _ ha] at h
      rw [List.find?_cons_of_neg _ ha]
      exact ih db₂ h

/-- A successful lookup pins the row's `short_link` to the looked-up code. -/
theorem short_link_of_get (db : List Link) (code : String) (link : Link)
    (hfind : get_link_from_short db code = some link) :
    link.short_link = code := by
  have hfind2 : List.find? (fun l : Link => l.short_link == code) db
      = some link := hfind
  have h := List.find?_some hfind2
  simpa using h

/-- Unfolding of the redirect handler on a hit. -/
theorem handle_redirect_url_found (db : List Link) (code : String)
    (link : Link) (hfind : get_link_from_short db code = some link) :
    handle_redirect_url db code =
      (.redirect link.url,
       update_link db { link with clicks := link.clicks + 1 }) := by
  unfold handle_redirect_url
  rw [hfind]

/-- Looking up a code after `update_link` of a row carrying that code
returns the first pre-update match with the updated columns written. -/
theorem get_link_from_short_update_link (db : List Link) (upd link : Link)
    (hfind : get_link_from_short db upd.short_link = some link) :
    get_link_from_short (update_link db upd) upd.short_link =
      some { link with url := upd.url, deletion_id := upd.deletion_id,
                       clicks := upd.clicks, timestamp := upd.timestamp } := by
  have hfind2 : List.find? (fun l : Link => l.short_link == upd.short_link) db
      = some link := hfind
  have hb := List.find?_some hfind2
  have hf : ∀ l : Link,
      ((fun l : Link =>
        if l.short_link == upd.short_link then
          { l with url := upd.url, deletion_id := upd.deletion_id,
                   clicks := upd.clicks, timestamp := upd.timestamp }
        else l) l).short_link = l.short_link := by
    intro l
    dsimp only
    split <;> rfl
  have hres := find?_map_of_short_link_eq _ hf upd.short_link db link hfind
  show List.find? (fun l : Link => l.short_link == upd.short_link)
      (update_link db upd) = _
  unfold update_link
  rw [hres, if_pos hb]

/-- `update_link` keeps every row whose `short_link` differs from the
updated one. -/
theorem mem_update_link_of_ne (db : List Link) (upd l : Link)
    (hl : l ∈ db) (hne : l.short_link ≠ upd.short_link) :
    l ∈ update_link db upd := by
  unfold update_link
  refine List.mem_map.mpr ⟨l, hl, ?_⟩
  dsimp only
  rw [if_neg (by simpa using hne)]

/-- Conversely, a row of the updated table whose `short_link` differs from
the updated one was already in the table. -/
theorem mem_of_mem_update_link_of_ne (db : List Link) (upd l : Link)
    (hl : l ∈ update_link db upd) (hne : l.short_link ≠ upd.short_link) :
    l ∈ db := by
  unfold update_link at hl
  obtain ⟨a, ha, hfa⟩ := List.mem_map.mp hl
  by_cases hb : (a.short_link == upd.short_link) = true
  · rw [if_pos hb] at hfa
    exfalso
    apply hne
    rw [← hfa]
    simpa using hb
  · rw [if_neg hb] at hfa
    rw [← hfa]
    exact ha

/-- A row of the updated table carrying the updated `short_link` is some
pre-update row with that `short_link` and the updated columns written. -/
theorem mem_update_link_of_eq (db : List Link) (upd l : Link)
    (hl : l ∈ update_link db upd) (heq : l.short_link = upd.short_link) :
    ∃ a ∈ db, a.short_link = upd.short_link ∧
      l = { a with url := upd.url, deletion_id := upd.deletion_id,
                   clicks := upd.clicks, timestamp := upd.timestamp } := by
  unfold update_link at hl
  obtain ⟨a, ha, hfa⟩ := List.mem_map.mp hl
  by_cases hb : (a.short_link == upd.short_link) = true
  · rw [if_pos hb] at hfa
    exact ⟨a, ha, by simpa using hb, hfa.symm⟩
  · rw [if_neg hb] at hfa
    subst hfa
    exact absurd (by simpa using heq) hb

/-- Claim C1: whenever the allocation loop of `get_valid_short_link`
returns a candidate code, `is_shortcode_in_db` is false for that code on
the store state the loop checked against. -/
theorem get_valid_short_link_fresh (db : List Link) (length : Nat)
    (rands : List (Nat → Fin charset.length)) (code : String)
    (h : get_valid_short_link db length rands = some code) :
    is_shortcode_in_db db code = false := by
  induction rands with
  | nil => simp [get_valid_short_link] at h
  | cons r rest ih =>
    simp only [get_valid_short_link] at h
    by_cases hb : is_shortcode_in_db db (generate_random_code length r) = true
    · rw [if_pos hb] at h
      exact ih h
    · rw [if_neg hb] at h
      injection h with h
      rw [← h]
      exact Bool.not_eq_true _ ▸ hb

theorem get_valid_short_link_fresh_witness :
    get_valid_short_link [] 3 [fun _ => ⟨0, by decide⟩] = some "aaa" ∧
    is_shortcode_in_db [] "aaa" = false :=
  ⟨by decide, get_valid_short_link_fresh [] 3 [fun _ => ⟨0, by decide⟩] "aaa"
    (by decide)⟩

/-- Claim C2: resolving a short code present in the store redirects to the
stored target url and persists exactly one more click; resolving an absent
code reports not-found and leaves the store unchanged. -/
theorem resolve_spec (db : List Link) (code : String) :
    (∀ link, get_link_from_short db code = some link →
      handle_redirect_url db code =
        (.redirect link.url,
         update_link db { link with clicks := link.clicks + 1 }) ∧
      get_link_from_short (handle_redirect_url db code).2 code =
        some { link with clicks := link.clicks + 1 }) ∧
    (get_link_from_short db code = none →
      handle_redirect_url db code = (.notFound, db)) := by
  constructor
  · intro link hfind
    have h1 := handle_redirect_url_found db code link hfind
    refine ⟨h1, ?_⟩
    rw [h1]
    have hsl : link.short_link = code := short_link_of_get db code link hfind
    have hfind2 : get_link_from_short db
        ({ link with clicks := link.clicks + 1 } : Link).short_link
        = some link := by
      show get_link_from_short db link.short_link = some link
      rw [hsl]; exact hfind
    have h2 := get_link_from_short_update_link db
      { link with clicks := link.clicks + 1 } link hfind2
    show get_link_from_short
      (update_link db { link with clicks := link.clicks + 1 }) code
      = some { link with clicks := link.clicks + 1 }
    rw [← hsl]
    exact h2
  · intro hnone
    unfold handle_redirect_url
    rw [hnone]

theorem resolve_spec_witness :
    handle_redirect_url [⟨"http://x.com", "ab2", "t0k2n3", 0, 5⟩] "ab2" =
      (.redirect "http://x.com",
       [⟨"http://x.com", "ab2", "t0k2n3", 1, 5⟩]) ∧
    handle_redirect_url [⟨"http://x.com", "ab2", "t0k2n3", 0, 5⟩] "zz9" =
      (.notFound, [⟨"http://x.com", "ab2", "t0k2n3", 0, 5⟩]) := by
  constructor
  · exact ((resolve_spec [⟨"http://x.com", "ab2", "t0k2n3", 0, 5⟩] "ab2").1
      ⟨"http://x.com", "ab2", "t0k2n3", 0, 5⟩ (by decide)).1
  · exact (resolve_spec [⟨"http://x.com", "ab2", "t0k2n3", 0, 5⟩] "zz9").2
      (by decide)

/-- Claim C5: every input string already accepted by the URL validator is
returned unchanged by `format_url`. -/
theorem format_url_identity_on_valid_urls
    (isUrl isDomain : String → Bool) (url : String)
    (h : isUrl url = true) :
    format_url isUrl isDomain url = some url := by
  simp [format_url, h]

theorem format_url_identity_on_valid_urls_witness :
    format_url (fun s => s == "https://example.com") (fun _ => false)
      "https://example.com" = some "https://example.com" :=
  format_url_identity_on_valid_urls _ _ _ (by decide)

/-- Claim C6, counterexample: `format_url` does not prepend `http://` to
every string rejected by the URL validator but accepted by the domain
validator; it additionally requires the prepended string to pass the URL
validator, and returns the failure sentinel otherwise.  The instantiation
models the `validators` library at the input `foo_bar.example.com`: its
domain pattern admits underscores in labels while its URL pattern does
not, so `validators.domain` accepts the input and `validators.url`
rejects both it and `http://foo_bar.example.com`. -/
theorem format_url_bare_domain_cex :
    (fun (_ : String) => false) "foo_bar.example.com" = false ∧
    (fun (s : String) => s == "foo_bar.example.com") "foo_bar.example.com"
      = true ∧
    format_url (fun _ => false) (fun s => s == "foo_bar.example.com")
      "foo_bar.example.com" = none := by
  refine ⟨rfl, by decide, ?_⟩
  decide

/-- Claim C6, amended: for every input rejected by the URL validator but
accepted by the domain validator, `format_url` returns the input with
`http://` prepended provided the prepended string itself passes the URL
validator. -/
theorem format_url_bare_domain (isUrl isDomain : String → Bool)
    (url : String) (hu : isUrl url = false) (hd : isDomain url = true)
    (hp : isUrl ("http://" ++ url) = true) :
    format_url isUrl isDomain url = some ("http://" ++ url) := by
  simp [format_url, hu, hd, hp]

theorem format_url_bare_domain_witness :
    format_url (fun s => s == "http://example.com") (fun s => s == "example.com")
      "example.com" = some "http://example.com" :=
  format_url_bare_domain _ _ _ (by decide) (by decide) (by decide)

/-- Claim C7: every input rejected by both the URL validator and the
domain validator is rejected by `format_url` (the `-1` sentinel, modelled
as `none`). -/
theorem format_url_rejects_invalid (isUrl isDomain : String → Bool)
    (url : String) (hu : isUrl url = false) (hd : isDomain url = false) :
    format_url isUrl isDomain url = none := by
  simp [format_url, hu, hd]

theorem format_url_rejects_invalid_witness :
    format_url (fun _ => false) (fun _ => false) "not a url" = none :=
  format_url_rejects_invalid _ _ _ rfl rfl

/-- A successful lookup returns a row of the table. -/
theorem mem_of_get (db : List Link) (code : String) (link : Link)
    (hfind : get_link_from_short db code = some link) : link ∈ db := by
  have hfind2 : List.find? (fun l : Link => l.short_link == code) db
      = some link := hfind
  exact List.mem_of_find?_eq_some hfind2

/-- Claim C3: deleting with the stored token removes the link, so that a
subsequent resolve reports not-found; deleting with any other token
reports a mismatch, leaves the store (hence the link and all its fields)
unchanged, and the link still resolves to its target url; deleting an
absent short code reports not-found with the store unchanged. -/
theorem confirm_deletion_spec (db : List Link) (code tok : String) :
    (∀ link, get_link_from_short db code = some link →
      (handle_deletion_request db code link.deletion_id =
          (.deleted, delete_link db link) ∧
        handle_redirect_url (delete_link db link) code =
          (.notFound, delete_link db link)) ∧
      (tok ≠ link.deletion_id →
        handle_deletion_request db code tok = (.tokenMismatch, db) ∧
        (handle_redirect_url db code).1 = .redirect link.url)) ∧
    (get_link_from_short db code = none →
      handle_deletion_request db code tok = (.notFound, db)) := by
  constructor
  · intro link hfind
    have hsl : link.short_link = code := short_link_of_get db code link hfind
    constructor
    · constructor
      · unfold handle_deletion_request
        rw [hfind]
        simp
      · have hnone : get_link_from_short (delete_link db link) code = none := by
          show List.find? (fun l : Link => l.short_link == code)
            (delete_link db link) = none
          rw [List.find?_eq_none]
          intro x hx
          unfold delete_link at hx
          have hx2 := List.mem_filter.mp hx
          have hxs : x.short_link ≠ link.short_link := by simpa using hx2.2
          rw [hsl] at hxs
          simpa using hxs
        unfold handle_redirect_url
        rw [hnone]
    · intro hne
      constructor
      · unfold handle_deletion_request
        rw [hfind]
        simp [hne]
      · rw [handle_redirect_url_found db code link hfind]
  · intro hnone
    unfold handle_deletion_request
    rw [hnone]

theorem confirm_deletion_spec_witness :
    handle_deletion_request [⟨"http://x.com", "ab2", "t0k2n3", 0, 5⟩]
        "ab2" "t0k2n3" = (.deleted, []) ∧
    handle_deletion_request [⟨"http://x.com", "ab2", "t0k2n3", 0, 5⟩]
        "ab2" "wrong" =
      (.tokenMismatch, [⟨"http://x.com", "ab2", "t0k2n3", 0, 5⟩]) ∧
    handle_deletion_request [⟨"http://x.com", "ab2", "t0k2n3", 0, 5⟩]
        "zz9" "t0k2n3" =
      (.notFound, [⟨"http://x.com", "ab2", "t0k2n3", 0, 5⟩]) := by
  refine ⟨?_, ?_, ?_⟩
  · have h := ((confirm_deletion_spec
        [⟨"http://x.com", "ab2", "t0k2n3", 0, 5⟩] "ab2" "t0k2n3").1
        ⟨"http://x.com", "ab2", "t0k2n3", 0, 5⟩ (by decide)).1.1
    exact h.trans (by decide)
  · exact (((confirm_deletion_spec
      [⟨"http://x.com", "ab2", "t0k2n3", 0, 5⟩] "ab2" "wrong").1
      ⟨"http://x.com", "ab2", "t0k2n3", 0, 5⟩ (by decide)).2 (by decide)).1
  · exact (confirm_deletion_spec
      [⟨"http://x.com", "ab2", "t0k2n3", 0, 5⟩] "zz9" "t0k2n3").2 (by decide)

/-- Claim C10: the deletion-token check is exact string equality against
the stored `deletion_id`: any differing submitted token (in particular one
differing only in letter case, as the witness shows) yields a mismatch
with the store untouched, and only the identical token deletes. -/
theorem deletion_token_exact_match (db : List Link) (code tok : String)
    (link : Link) (hfind : get_link_from_short db code = some link) :
    (tok ≠ link.deletion_id →
      handle_deletion_request db code tok = (.tokenMismatch, db)) ∧
    (tok = link.deletion_id →
      handle_deletion_request db code tok = (.deleted, delete_link db link)) := by
  constructor
  · intro hne
    unfold handle_deletion_request
    rw [hfind]
    simp [hne]
  · intro heq
    unfold handle_deletion_request
    rw [hfind]
    simp [heq]

theorem deletion_token_exact_match_witness :
    handle_deletion_request [⟨"http://x.com", "ab2", "t0k2n3", 0, 5⟩]
        "ab2" "T0K2N3" =
      (.tokenMismatch, [⟨"http://x.com", "ab2", "t0k2n3", 0, 5⟩]) :=
  (deletion_token_exact_match [⟨"http://x.com", "ab2", "t0k2n3", 0, 5⟩]
    "ab2" "T0K2N3" ⟨"http://x.com", "ab2", "t0k2n3", 0, 5⟩
    (by decide)).1 (by decide)

/-- Claim C9: under the primary-key uniqueness the schema guarantees, a
successful resolve rewrites only the resolved row and only its `clicks`
column: the persisted row keeps its url, short code, deletion token and
timestamp with `clicks` incremented, rows with other short codes pass
through untouched in both directions, and every post-state row carrying
the resolved code is exactly the incremented pre-state row. -/
theorem resolve_frame (db : List Link) (code : String) (link : Link)
    (hfind : get_link_from_short db code = some link)
    (huniq : ∀ l₁ ∈ db, ∀ l₂ ∈ db, l₁.short_link = l₂.short_link → l₁ = l₂) :
    get_link_from_short (handle_redirect_url db code).2 code =
      some { link with clicks := link.clicks + 1 } ∧
    (∀ l ∈ db, l.short_link ≠ code → l ∈ (handle_redirect_url db code).2) ∧
    (∀ l ∈ (handle_redirect_url db code).2, l.short_link ≠ code → l ∈ db) ∧
    (∀ l ∈ (handle_redirect_url db code).2, l.short_link = code →
      l = { link with clicks := link.clicks + 1 }) := by
  have hsl : link.short_link = code := short_link_of_get db code link hfind
  have h1 := handle_redirect_url_found db code link hfind
  have hsnd : (handle_redirect_url db code).2 =
      update_link db { link with clicks := link.clicks + 1 } := by rw [h1]
  have hupds : ({ link with clicks := link.clicks + 1 } : Link).short_link
      = code := hsl
  refine ⟨?_, ?_, ?_, ?_⟩
  · rw [hsnd, ← hupds]
    have hfind2 : get_link_from_short db
        ({ link with clicks := link.clicks + 1 } : Link).short_link
        = some link := by
      show get_link_from_short db link.short_link = some link
      rw [hsl]; exact hfind
    exact get_link_from_short_update_link db
      { link with clicks := link.clicks + 1 } link hfind2
  · intro l hl hne
    rw [hsnd]
    exact mem_update_link_of_ne db _ l hl (fun h => hne (h.trans hupds))
  · intro l hl hne
    rw [hsnd] at hl
    exact mem_of_mem_update_link_of_ne db _ l hl (fun h => hne (h.trans hupds))
  · intro l hl heq
    rw [hsnd] at hl
    obtain ⟨a, ha, has, hval⟩ :=
      mem_update_link_of_eq db _ l hl (heq.trans hupds.symm)
    have hlink : link ∈ db := mem_of_get db code link hfind
    have halink : a = link := huniq a ha link hlink has
    subst halink
    exact hval.trans rfl

theorem resolve_frame_witness :
    get_link_from_short
        (handle_redirect_url [⟨"http://x.com", "ab2", "t0k2n3", 0, 5⟩,
          ⟨"http://y.com", "cd4", "t0k2n4", 7, 6⟩] "ab2").2 "ab2" =
      some ⟨"http://x.com", "ab2", "t0k2n3", 1, 5⟩ ∧
    (⟨"http://y.com", "cd4", "t0k2n4", 7, 6⟩ : Link) ∈
      (handle_redirect_url [⟨"http://x.com", "ab2", "t0k2n3", 0, 5⟩,
        ⟨"http://y.com", "cd4", "t0k2n4", 7, 6⟩] "ab2").2 := by
  have h := resolve_frame
    [⟨"http://x.com", "ab2", "t0k2n3", 0, 5⟩,
     ⟨"http://y.com", "cd4", "t0k2n4", 7, 6⟩] "ab2"
    ⟨"http://x.com", "ab2", "t0k2n3", 0, 5⟩ (by decide) (by decide)
  exact ⟨h.1, h.2.1 ⟨"http://y.com", "cd4", "t0k2n4", 7, 6⟩
    (by decide) (by decide)⟩

/-- Claim C8: `generate_random_code length` returns a string of exactly
`length` characters, each drawn from the 56-character safe alphabet, and
never containing any of the confusable glyphs `0`, `O`, `1`, `l`, `I`. -/
theorem generate_random_code_safe (length : Nat)
    (randint : Nat → Fin charset.length) :
    charset.length = 56 ∧
    (generate_random_code length randint).length = length ∧
    ∀ c ∈ (generate_random_code length randint).data,
      c ∈ charset ∧ c ∉ ['0', 'O', '1', 'l', 'I'] := by
  refine ⟨by decide, ?_, ?_⟩
  · simp [generate_random_code, String.length]
  · intro c hc
    simp only [generate_random_code, String.mk, List.mem_map] at hc
    obtain ⟨i, _, rfl⟩ := hc
    refine ⟨List.get_mem _ _ _, ?_⟩
    have hall : ∀ x ∈ charset, x ∉ ['0', 'O', '1', 'l', 'I'] := by decide
    exact hall _ (List.get_mem _ _ _)

/-- Claim C4: when the submission handler accepts a raw URL and returns a
short code and deletion code, the stored row carries exactly the
normalized URL, the returned codes, a zero click count and the creation
time, and resolving the returned short code redirects to that normalized
URL. -/
theorem create_then_resolve (db : List Link) (isUrl isDomain : String → Bool)
    (submitted_url : String) (rands : List (Nat → Fin charset.length))
    (tokRand : Nat → Fin charset.length) (t : Nat)
    (code tok : String) (db2 : List Link)
    (h : handle_new_url db isUrl isDomain submitted_url rands tokRand t =
      some (.created code tok, db2)) :
    ∃ u, format_url isUrl isDomain submitted_url = some u ∧
      get_link_from_short db2 code =
        some { url := u, short_link := code, deletion_id := tok,
               clicks := 0, timestamp := t } ∧
      (handle_redirect_url db2 code).1 = .redirect u := by
  unfold handle_new_url at h
  cases hfu : format_url isUrl isDomain submitted_url with
  | none =>
    simp only [hfu] at h
    simp at h
  | some u =>
    simp only [hfu] at h
    cases hal : get_valid_short_link db 3 rands with
    | none =>
      simp only [hal] at h
      simp at h
    | some sc =>
      simp only [hal] at h
      cases had : add_link db
          { url := u, short_link := sc,
            deletion_id := generate_random_code 6 tokRand, clicks := 0,
            timestamp := t } with
      | none =>
        simp only [had] at h
        simp at h
      | some db3 =>
        simp only [had, Option.some.injEq, Prod.mk.injEq,
          NewUrlResult.created.injEq] at h
        obtain ⟨⟨hsc, htok⟩, hdb⟩ := h
        subst hsc
        subst htok
        subst hdb
        unfold add_link at had
        split at had
        next hany =>
          exact absurd had (by simp)
        next hany =>
          injection had with had
          have hfresh : ∀ x ∈ db,
              ¬(fun l : Link => l.short_link == sc) x = true := by
            intro x hx hcontra
            apply hany
            rw [List.any_eq_true]
            refine ⟨x, hx, ?_⟩
            rw [Bool.or_eq_true]
            exact Or.inl hcontra
          have hnone_db : List.find? (fun l : Link => l.short_link == sc) db
              = none := List.find?_eq_none.mpr hfresh
          have hget : get_link_from_short (db ++
              [{ url := u, short_link := sc,
                 deletion_id := generate_random_code 6 tokRand, clicks := 0,
                 timestamp := t }]) sc =
              some { url := u, short_link := sc,
                     deletion_id := generate_random_code 6 tokRand,
                     clicks := 0, timestamp := t } := by
            show List.find? (fun l : Link => l.short_link == sc) _ = _
            rw [find?_append_of_none db _ hnone_db]
            exact List.find?_cons_of_pos [] (beq_self_eq_true sc)
          rw [← had]
          refine ⟨u, rfl, hget, ?_⟩
          rw [handle_redirect_url_found _ sc _ hget]

theorem create_then_resolve_witness :
    ∃ u, format_url (fun s => s == "http://example.com") (fun _ => false)
        "http://example.com" = some u ∧
      get_link_from_short
        [⟨"http://example.com", "aaa", "bbbbbb", 0, 42⟩] "aaa" =
        some { url := u, short_link := "aaa", deletion_id := "bbbbbb",
               clicks := 0, timestamp := 42 } ∧
      (handle_redirect_url
        [⟨"http://example.com", "aaa", "bbbbbb", 0, 42⟩] "aaa").1 =
        .redirect u :=
  create_then_resolve [] (fun s => s == "http://example.com")
    (fun _ => false) "http://example.com" [fun _ => ⟨0, by decide⟩]
    (fun _ => ⟨1, by decide⟩) 42 "aaa" "bbbbbb"
    [⟨"http://example.com", "aaa", "bbbbbb", 0, 42⟩] (by decide)

end LinkShortener
